import Mathlib

/-!
Verification of the locatepy spatial indexing and assignment engine.

Shallow embedding of:
 - the state-assignment loop of `ingest_municipalities`
   (src/dataprocessing/processboundaries.py, intersects-only variant, and
   src/dataprocessing/dataprocessing.py, covers-or-intersects variant),
 - the reverse-geocode path `find_admin` / `geocode_point`
   (src/locatepy/pylocator.py),
 - the spatial-index contract of spec §4.1 for the third-party pieces
   (shapely STRtree, sqlite R-tree) that are not part of this repository.

Geometries are modelled as axis-aligned rectangles with rational
coordinates; for such geometries the shapely predicates `covers`,
`intersects`, `intersection(..).area` and `area` have the exact closed
forms used below, and a box is its own bounding box.  Rational arithmetic
stands in for the source's floating point.
-/

namespace Locatepy

/-- An axis-aligned rectangle, used both as a geometry and as a bounding
box (`geom.bounds` in the source).  Coordinates are in decimal degrees. -/
structure Box where
  minx : ℚ
  miny : ℚ
  maxx : ℚ
  maxy : ℚ
deriving DecidableEq, Repr

instance : Inhabited Box := ⟨⟨0, 0, 0, 0⟩⟩

/-- Well-formedness of a box: `minx ≤ maxx ∧ miny ≤ maxy` (spec §3). -/
def Box.wf (b : Box) : Prop := b.minx ≤ b.maxx ∧ b.miny ≤ b.maxy

instance (b : Box) : Decidable b.wf := by unfold Box.wf; infer_instance

/-- `geom.area` for an axis-aligned rectangle. -/
def Box.area (b : Box) : ℚ := (b.maxx - b.minx) * (b.maxy - b.miny)

/-- shapely `a.intersects(b)` for rectangles: boundary-inclusive overlap
of the coordinate intervals on both axes. -/
def Box.intersects (a b : Box) : Bool :=
  decide (a.minx ≤ b.maxx) && decide (b.minx ≤ a.maxx) &&
  decide (a.miny ≤ b.maxy) && decide (b.miny ≤ a.maxy)

/-- shapely `a.covers(b)` for rectangles: `b` lies inside `a`, boundary
included. -/
def Box.covers (a b : Box) : Bool :=
  decide (a.minx ≤ b.minx) && decide (b.maxx ≤ a.maxx) &&
  decide (a.miny ≤ b.miny) && decide (b.maxy ≤ a.maxy)

/-- shapely `geom.covers(Point(x, y))` for a rectangle: the point lies
inside or on the boundary of the rectangle. -/
def Box.coversPt (a : Box) (x y : ℚ) : Bool :=
  decide (a.minx ≤ x) && decide (x ≤ a.maxx) &&
  decide (a.miny ≤ y) && decide (y ≤ a.maxy)

/-- shapely `a.intersection(b).area` for rectangles: the intersection is
again a rectangle (possibly empty or degenerate), of this area. -/
def Box.interArea (a b : Box) : ℚ :=
  max 0 (min a.maxx b.maxx - max a.minx b.minx) *
  max 0 (min a.maxy b.maxy - max a.miny b.miny)

/-- Squared Euclidean distance between two rectangles (zero when they
touch or overlap).  Minimising it is the same as minimising the distance
used by `STRtree.nearest` / spec §4.1 `nearestQuery`. -/
def Box.sqDist (a b : Box) : ℚ :=
  let dx := max 0 (max (b.minx - a.maxx) (a.minx - b.maxx))
  let dy := max 0 (max (b.miny - a.maxy) (a.miny - b.maxy))
  dx * dx + dy * dy

/-- The guarded ratio computation of both ingestion variants:
`ratio = inter_area / geom.area if geom.area > 0 else 0.0`. -/
def ratioOf (sg child : Box) : ℚ :=
  if 0 < child.area then sg.interArea child / child.area else 0

/-- One iteration of the candidate loop of
processboundaries.ingest_municipalities (lines 174-186): the state is the
pair `(best_state_idx, best_ratio)`, a candidate is admitted when
`pg.intersects(geom)` holds, and strictly greater ratio replaces the
incumbent. -/
def stepIntersects (parents : List Box) (child : Box)
    (st : Option Nat × ℚ) (idx : Nat) : Option Nat × ℚ :=
  let sg := parents.getD idx default
  if sg.intersects child then
    let r := ratioOf sg child
    if st.2 < r then (some idx, r) else st
  else st

/-- One iteration of the candidate loop of
dataprocessing.ingest_municipalities (lines 140-149): identical except the
admission test is `pg.covers(geom) or pg.intersects(geom)`. -/
def stepCoversIntersects (parents : List Box) (child : Box)
    (st : Option Nat × ℚ) (idx : Nat) : Option Nat × ℚ :=
  let sg := parents.getD idx default
  if sg.covers child || sg.intersects child then
    let r := ratioOf sg child
    if st.2 < r then (some idx, r) else st
  else st

/-- The whole candidate loop of processboundaries.py, starting from
`best_state_idx = None; best_ratio = -1.0`. -/
def selectLoop (parents : List Box) (child : Box) (cands : List Nat) :
    Option Nat × ℚ :=
  cands.foldl (stepIntersects parents child) (none, -1)

/-- The whole candidate loop of dataprocessing.py (covers-or-intersects
admission), starting from `best_idx = None; best_ratio = -1.0`. -/
def selectLoopCI (parents : List Box) (child : Box) (cands : List Nat) :
    Option Nat × ℚ :=
  cands.foldl (stepCoversIntersects parents child) (none, -1)

/-- Modelled from the spec: `tree.query(geom)` of the third-party shapely
STRtree is not part of this repository; per §4.1 `rangeQuery` returns
every entry whose bounding box overlaps the query box, deterministically,
and the entries here are the parent geometries indexed by list position,
so the candidates come back in ascending index order. -/
def rangeQueryIdx (parents : List Box) (q : Box) : List Nat :=
  (List.range parents.length).filter
    (fun i => (parents.getD i default).intersects q)

/-- Modelled from the spec: `tree.nearest(geom)` of the third-party
shapely STRtree is not part of this repository; per §4.1 `nearestQuery`
returns the entry at minimum Euclidean distance, ties broken by lowest
id.  Keeping the earlier index on ties realises the lowest-id tie-break
since indices are scanned in ascending order. -/
def nearestIdx (parents : List Box) (q : Box) : Nat :=
  (List.range parents.length).foldl
    (fun best i =>
      if (parents.getD i default).sqDist q <
          (parents.getD best default).sqDist q then i else best)
    0

/-- Full parent selection for one child geometry
(processboundaries.py lines 161-191): candidate loop over the range-query
result, then the nearest-neighbour fallback when no candidate was
admitted. -/
def assignParent (parents : List Box) (child : Box) : Nat :=
  match (selectLoop parents child (rangeQueryIdx parents child)).1 with
  | some i => i
  | none => nearestIdx parents child

/-- A row of a bounding-box index: surrogate id plus bounding box
(spec §3 `IndexedEntry`; one row of `municipalities_rtree` with columns
`id, minx, maxx, miny, maxy`). -/
structure Entry where
  id : Nat
  bbox : Box
deriving DecidableEq, Repr

/-- The WHERE clause of `find_admin` (src/locatepy/pylocator.py lines
9-17): `r.minx <= lon AND r.maxx >= lon AND r.miny <= lat AND
r.maxy >= lat`, i.e. the R-tree rows whose stored box contains the query
point, in stored order. -/
def rtreeCandidates (entries : List Entry) (lon lat : ℚ) : List Entry :=
  entries.filter (fun e => e.bbox.coversPt lon lat)

/-- Modelled from the spec: the general `rangeQuery(queryBox)` of §4.1
(the sqlite R-tree / STRtree machinery behind it is third-party, not in
this repository): every entry whose stored box overlaps the query box.
Instantiated at a degenerate point box it is exactly the SQL predicate of
`rtreeCandidates`. -/
def rangeQueryBox (entries : List Entry) (q : Box) : List Entry :=
  entries.filter (fun e => e.bbox.intersects q)

/-- The construction failure of spec §4.1 / §7. -/
inductive IndexError where
  | EmptyIndex
deriving DecidableEq, Repr

/-- Modelled from the spec: a built SpatialIndex (§4.1) is an immutable
non-empty collection of entries; the bulk-load internals are third-party
and not in this repository, so only the §4.1 contract is modelled. -/
structure SpatialIndex where
  entries : List Entry
  nonempty : entries ≠ []

/-- Modelled from the spec: §4.1 construction, failing with `EmptyIndex`
on zero entries and succeeding otherwise. -/
def mkSpatialIndex (l : List Entry) : Except IndexError SpatialIndex :=
  if h : l = [] then Except.error IndexError.EmptyIndex
  else Except.ok ⟨l, h⟩

/-- §4.1 `rangeQuery` on a built index: the ids of the overlapping
entries. -/
def SpatialIndex.rangeQuery (ix : SpatialIndex) (q : Box) : List Nat :=
  (rangeQueryBox ix.entries q).map Entry.id

/-- Modelled from the spec: §4.1 `nearestQuery` over a list of entries —
minimum Euclidean distance (equivalently, minimum squared distance), ties
broken by lowest id.  Returns `none` only on the empty list, which a
built `SpatialIndex` excludes. -/
def nearestEntry : List Entry → Box → Option Entry
  | [], _ => none
  | e :: rest, q => some (rest.foldl
      (fun best x =>
        if x.bbox.sqDist q < best.bbox.sqDist q ∨
            (x.bbox.sqDist q = best.bbox.sqDist q ∧ x.id < best.id)
        then x else best) e)

/-- §4.1 `nearestQuery` on a built index. -/
def SpatialIndex.nearestQuery (ix : SpatialIndex) (q : Box) : Option Entry :=
  nearestEntry ix.entries q

/-- Admission test of the processboundaries.py loop, as a function of the
candidate index. -/
def admissible (parents : List Box) (child : Box) (j : Nat) : Bool :=
  (parents.getD j default).intersects child

/-- Ratio of a candidate index, as computed inside the loop. -/
def candRatio (parents : List Box) (child : Box) (j : Nat) : ℚ :=
  ratioOf (parents.getD j default) child

/-- A row of the `municipalities` table as written by
processboundaries.ingest_municipalities and read by `find_admin`:
`geomBlob` stands for the zlib-compressed WKB payload after
`decompress` + `wkb_loads`, with `none` marking a corrupt blob on which
those calls raise; `bbox` is the matching `municipalities_rtree` row
(inserted with the same id). -/
structure MuniRow where
  id : Nat
  name : String
  stateCode : String
  countryId : Nat
  geomBlob : Option Box
  bbox : Box
deriving DecidableEq, Repr

/-- A row of the `states` table (`code`, `name`). -/
structure StateRow where
  code : String
  name : String
deriving DecidableEq, Repr

/-- A row of the `countries` table (`id`, `name`). -/
structure CountryRow where
  id : Nat
  name : String
deriving DecidableEq, Repr

/-- The three tables `find_admin` joins, in stored (insertion) order. -/
structure DB where
  munis : List MuniRow
  states : List StateRow
  countries : List CountryRow
deriving DecidableEq, Repr

/-- The result dictionary of `find_admin` / `geocode_point`. -/
structure LocResult where
  municipal_name : String
  district_name : String
  country_name : String
deriving DecidableEq, Repr

/-- The SELECT of `find_admin`: R-tree rows containing the point, inner
joined with `states` on `s.code = m.state_id` and `countries` on
`c.id = m.country_id` (a municipality whose parent rows are missing
produces no row), scanning municipalities in stored order. -/
def sqlRows (db : DB) (lon lat : ℚ) : List (MuniRow × StateRow × CountryRow) :=
  (db.munis.filter (fun m => m.bbox.coversPt lon lat)).filterMap
    (fun m =>
      match db.states.find? (fun s => s.code == m.stateCode),
            db.countries.find? (fun c => c.id == m.countryId) with
      | some s, some c => some (m, s, c)
      | _, _ => none)

/-- The row loop of `find_admin` (src/locatepy/pylocator.py lines 18-21):
materialize each row's geometry — a corrupt blob raises, aborting the
whole query — and return the first row whose geometry covers the point;
`ok none` when the rows are exhausted. -/
def findAdminLoop (lon lat : ℚ) :
    List (MuniRow × StateRow × CountryRow) → Except String (Option LocResult)
  | [] => Except.ok none
  | (m, s, c) :: rest =>
    match m.geomBlob with
    | none => Except.error "corrupt geometry"
    | some g =>
      if g.coversPt lon lat then
        Except.ok (some ⟨m.name, s.name, c.name⟩)
      else findAdminLoop lon lat rest

/-- `find_admin(con, lat, lon, pt)`: run the SQL, then the row loop.  The
ancestors' names come from the join alone; no geometric test is applied
to them. -/
def find_admin (db : DB) (lon lat : ℚ) : Except String (Option LocResult) :=
  findAdminLoop lon lat (sqlRows db lon lat)

/-- `geocode_point(lat, lon)` (src/locatepy/pylocator.py lines 24-31):
`None` from `find_admin` becomes the UNKNOWN sentinel triple; an
exception raised inside `find_admin` propagates (there is no handler). -/
def geocode_point (db : DB) (lon lat : ℚ) : Except String LocResult :=
  match find_admin db lon lat with
  | Except.error e => Except.error e
  | Except.ok none => Except.ok ⟨"UNKNOWN", "UNKNOWN", "UNKNOWN"⟩
  | Except.ok (some r) => Except.ok r

/-- One municipal GeoJSON feature as consumed by the batch loop of
`ingest_municipalities`: raw properties, the optional name, and the
geometry — `none` models a malformed geometry on which
`shape(feature["geometry"])` (or any later predicate on it) raises. -/
structure Feature where
  props : List (String × String)
  shapeName : Option String
  geom : Option Box
deriving DecidableEq, Repr

/-- A successfully ingested municipality: the name (with the
`"UNKNOWN NAME"` default), the assigned parent state index and the
stored bounding box. -/
structure IngestRow where
  name : String
  stateIdx : Nat
  bbox : Box
deriving DecidableEq, Repr

/-- A failure record as accumulated by the `except` branch
(processboundaries.py lines 225-231): the feature's raw properties plus
the error message. -/
structure FailureRecord where
  props : List (String × String)
  error : String
deriving DecidableEq, Repr

/-- The body of the per-feature `try` block (processboundaries.py lines
162-223), reduced to the parts the spec's core covers: parse the
geometry (raising on a malformed one), assign a parent state, build the
row to insert. -/
def processOne (parents : List Box) (f : Feature) : Except String IngestRow :=
  match f.geom with
  | none => Except.error "malformed geometry"
  | some g =>
    Except.ok ⟨f.shapeName.getD "UNKNOWN NAME", assignParent parents g, g⟩

/-- The whole batch loop: each feature appends either a success row or a
failure record, and the loop always runs to the end of the feature
list. -/
def processBatch (parents : List Box) (fs : List Feature) :
    List IngestRow × List FailureRecord :=
  fs.foldl
    (fun acc f =>
      match processOne parents f with
      | Except.ok r => (acc.1 ++ [r], acc.2)
      | Except.error e => (acc.1, acc.2 ++ [⟨f.props, e⟩]))
    ([], [])

/-- The covering test `find_admin` applies to one municipality row:
materialized geometry covers the point; a corrupt blob never passes (it
raises before the test, handled separately). -/
def coversTest (lon lat : ℚ) (m : MuniRow) : Bool :=
  match m.geomBlob with
  | some g => g.coversPt lon lat
  | none => false

/-- Fixture: the unit square. -/
def cBox : Box := ⟨0, 0, 1, 1⟩

/-- Fixture: a municipality row whose stored geometry blob is corrupt
(`decompress`/`wkb_loads` raise on it). -/
def cMuni0 : MuniRow := ⟨0, "X", "S", 0, none, cBox⟩

/-- Fixture: an intact municipality row covering the unit square. -/
def cMuni1 : MuniRow := ⟨1, "Y", "S", 0, some cBox, cBox⟩

/-- Fixture database with one corrupt and one intact municipality, both
R-tree boxes containing the query point. -/
def corruptDB : DB :=
  ⟨[cMuni0, cMuni1], [⟨"S", "St"⟩], [⟨0, "Co"⟩]⟩

/-- Fixture: parent squares A, B, C of the spec §8 concrete scenario. -/
def specParents : List Box := [⟨0, 0, 1, 1⟩, ⟨1, 0, 2, 1⟩, ⟨2, 0, 3, 1⟩]

/-- Fixture: the child rectangle [0.8,1.2]×[0,1] of the spec §8 concrete
scenario, split 0.5/0.5 between A and B. -/
def specChild : Box := ⟨4/5, 0, 6/5, 1⟩

/-- Fixture: a well-linked database with a single intact municipality
over the unit square. -/
def smallDB : DB :=
  ⟨[⟨0, "M", "S", 0, some cBox, cBox⟩], [⟨"S", "St"⟩], [⟨0, "Co"⟩]⟩

theorem ratioOf_nonneg (sg child : Box) : 0 ≤ ratioOf sg child := by
  unfold ratioOf
  split
  · exact div_nonneg (mul_nonneg (le_max_left 0 _) (le_max_left 0 _))
      (le_of_lt (by assumption))
  · exact le_refl 0

theorem candRatio_nonneg (parents : List Box) (child : Box) (j : Nat) :
    0 ≤ candRatio parents child j := ratioOf_nonneg _ _

theorem covers_imp_intersects (a b : Box) (hb : b.wf)
    (hc : a.covers b = true) : a.intersects b = true := by
  obtain ⟨hx, hy⟩ := hb
  simp only [Box.covers, Bool.and_eq_true, decide_eq_true_eq] at hc
  simp only [Box.intersects, Bool.and_eq_true, decide_eq_true_eq]
  refine ⟨⟨⟨?_, ?_⟩, ?_⟩, ?_⟩ <;> linarith [hc.1.1.1, hc.1.1.2, hc.1.2, hc.2]

theorem covers_or_intersects (child : Box) (hwf : child.wf) (sg : Box) :
    (sg.covers child || sg.intersects child) = sg.intersects child := by
  cases h : sg.intersects child with
  | true => simp [h]
  | false =>
    cases hc : sg.covers child with
    | false => simp [h, hc]
    | true =>
      exact absurd (covers_imp_intersects sg child hwf hc) (by simp [h])

theorem stepCI_eq_step (parents : List Box) (child : Box) (hwf : child.wf)
    (st : Option Nat × ℚ) (idx : Nat) :
    stepCoversIntersects parents child st idx =
      stepIntersects parents child st idx := by
  simp only [stepCoversIntersects, stepIntersects,
    covers_or_intersects child hwf]

/-- C10: the two assigner variants — covers-or-intersects admission
(dataprocessing.py) and intersects-only admission (processboundaries.py)
— admit exactly the same candidates for a well-formed child, because
covers implies intersects, and therefore run to the same selection state
(same parent, same best ratio) on every candidate list. -/
theorem variants_equivalent (parents : List Box) (child : Box)
    (hwf : child.wf) :
    (∀ sg : Box, (sg.covers child || sg.intersects child) = sg.intersects child) ∧
    ∀ cands : List Nat,
      selectLoopCI parents child cands = selectLoop parents child cands := by
  refine ⟨covers_or_intersects child hwf, fun cands => ?_⟩
  unfold selectLoopCI selectLoop
  exact List.foldl_ext _ _ _
    (fun st j _ => stepCI_eq_step parents child hwf st j)

/-- Witness for C10 at the spec §8 scenario. -/
theorem variants_equivalent_holds :
    selectLoopCI specParents specChild [0, 1, 2] =
      selectLoop specParents specChild [0, 1, 2] :=
  (variants_equivalent specParents specChild
    (by norm_num [Box.wf, specChild])).2 [0, 1, 2]

/-- C7: for a child geometry of zero area, the guarded ratio computation
of the assigner returns 0 for every intersecting candidate; the division
branch is never taken, so no division by zero occurs. -/
theorem zero_area_ratio_zero (sg child : Box)
    (hz : child.area = 0) (_hi : sg.intersects child = true) :
    ratioOf sg child = 0 := by
  unfold ratioOf
  rw [hz]
  simp

/-- Witness for C7 at a degenerate (zero-area) segment child. -/
theorem zero_area_ratio_zero_holds :
    (Box.mk 0 0 2 0).area = 0 ∧
    (Box.mk 0 0 1 1).intersects (Box.mk 0 0 2 0) = true ∧
    ratioOf (Box.mk 0 0 1 1) (Box.mk 0 0 2 0) = 0 :=
  ⟨by norm_num [Box.area], by norm_num [Box.intersects],
    zero_area_ratio_zero _ _ (by norm_num [Box.area])
      (by norm_num [Box.intersects])⟩

theorem stepIntersects_eq (parents : List Box) (child : Box)
    (st : Option Nat × ℚ) (k : Nat) :
    stepIntersects parents child st k =
      if admissible parents child k = true then
        (if st.2 < candRatio parents child k
          then (some k, candRatio parents child k) else st)
      else st := rfl

theorem selectLoop_none_iff (parents : List Box) (child : Box) :
    ∀ (cands : List Nat) (st : Option Nat × ℚ), (st.1 = none → st.2 = -1) →
      ((cands.foldl (stepIntersects parents child) st).1 = none ↔
        st.1 = none ∧ ∀ j ∈ cands, admissible parents child j = false) := by
  intro cands
  induction cands with
  | nil => intro st _; simp
  | cons k rest ih =>
    intro st hst
    rw [List.foldl_cons]
    by_cases hk : admissible parents child k = true
    · by_cases hlt : st.2 < candRatio parents child k
      · have hs : stepIntersects parents child st k =
            (some k, candRatio parents child k) := by
          rw [stepIntersects_eq, if_pos hk, if_pos hlt]
        rw [hs, ih _ (fun hc => absurd hc (by simp))]
        simp [List.forall_mem_cons, hk]
      · have hsome : ¬ st.1 = none := fun hn =>
          hlt (by
            rw [hst hn]
            exact lt_of_lt_of_le (by norm_num) (candRatio_nonneg parents child k))
        have hs : stepIntersects parents child st k = st := by
          rw [stepIntersects_eq, if_pos hk, if_neg hlt]
        rw [hs, ih _ hst]
        constructor
        · rintro ⟨h1, _⟩
          exact absurd h1 hsome
        · rintro ⟨h1, _⟩
          exact absurd h1 hsome
    · have hs : stepIntersects parents child st k = st := by
        rw [stepIntersects_eq, if_neg hk]
      rw [hs, ih _ hst]
      constructor
      · rintro ⟨h1, h2⟩
        refine ⟨h1, fun j hj => ?_⟩
        rcases List.mem_cons.mp hj with rfl | hj2
        · simpa using hk
        · exact h2 j hj2
      · rintro ⟨h1, h2⟩
        exact ⟨h1, fun j hj => h2 j (List.mem_cons_of_mem _ hj)⟩

theorem foldl_pick {α : Type} (f : α → α → α)
    (hf : ∀ b x, f b x = b ∨ f b x = x) :
    ∀ (l : List α) (b : α), l.foldl f b = b ∨ l.foldl f b ∈ l := by
  intro l
  induction l with
  | nil => intro b; simp
  | cons a t ih =>
    intro b
    rw [List.foldl_cons]
    rcases ih (f b a) with h | h
    · rw [h]
      rcases hf b a with h2 | h2
      · rw [h2]
        exact Or.inl rfl
      · rw [h2]
        exact Or.inr (List.mem_cons_self a t)
    · exact Or.inr (List.mem_cons_of_mem _ h)

theorem nearestIdx_lt (parents : List Box) (q : Box) (h : parents ≠ []) :
    nearestIdx parents q < parents.length := by
  unfold nearestIdx
  have hf : ∀ best i : Nat,
      (if (parents.getD i default).sqDist q <
          (parents.getD best default).sqDist q then i else best) = best ∨
      (if (parents.getD i default).sqDist q <
          (parents.getD best default).sqDist q then i else best) = i := by
    intro best i
    by_cases hc : (parents.getD i default).sqDist q <
        (parents.getD best default).sqDist q
    · exact Or.inr (if_pos hc)
    · exact Or.inl (if_neg hc)
  rcases foldl_pick
      (fun best i =>
        if (parents.getD i default).sqDist q <
            (parents.getD best default).sqDist q then i else best)
      hf (List.range parents.length) 0 with h0 | hm
  · rw [h0]
    exact List.length_pos.mpr h
  · exact List.mem_range.mp hm

/-- C2: the assigner uses the nearest-neighbour fallback exactly when no
range-query candidate intersects the child; when the loop selected a
candidate the fallback is never used, when it selected none the nearest
parent is assigned, and the fallback itself yields a valid parent index
(no failure for lack of candidates). -/
theorem fallback_iff_no_intersection (parents : List Box) (child : Box) :
    ((selectLoop parents child (rangeQueryIdx parents child)).1 = none ↔
      ∀ j ∈ rangeQueryIdx parents child,
        admissible parents child j = false) ∧
    ((selectLoop parents child (rangeQueryIdx parents child)).1 = none →
      assignParent parents child = nearestIdx parents child) ∧
    (∀ i, (selectLoop parents child (rangeQueryIdx parents child)).1 = some i →
      assignParent parents child = i) ∧
    (parents ≠ [] → nearestIdx parents child < parents.length) := by
  refine ⟨?_, ?_, ?_, nearestIdx_lt parents child⟩
  · rw [selectLoop, selectLoop_none_iff parents child _ (none, -1) (fun _ => rfl)]
    simp
  · intro hn
    unfold assignParent
    rw [hn]
  · intro i hi
    unfold assignParent
    rw [hi]

/-- Witness for C2: a child disjoint from the single parent triggers the
fallback, which returns a valid index. -/
theorem fallback_iff_no_intersection_holds :
    nearestIdx [Box.mk 0 0 1 1] (Box.mk 5 5 6 6) < 1 :=
  (fallback_iff_no_intersection [Box.mk 0 0 1 1] (Box.mk 5 5 6 6)).2.2.2
    (by simp)

theorem selectLoop_go_best (parents : List Box) (child : Box) :
    ∀ (cands : List Nat), cands.Pairwise (· < ·) →
      ∀ (i : Nat),
        admissible parents child i = true →
        (∀ j ∈ cands, i < j) →
        ∃ i', cands.foldl (stepIntersects parents child)
            (some i, candRatio parents child i) =
            (some i', candRatio parents child i') ∧
          admissible parents child i' = true ∧
          (i' = i ∨ i' ∈ cands) ∧
          candRatio parents child i ≤ candRatio parents child i' ∧
          (candRatio parents child i = candRatio parents child i' → i' = i) ∧
          ∀ j ∈ cands, admissible parents child j = true →
            candRatio parents child j ≤ candRatio parents child i' ∧
            (candRatio parents child j = candRatio parents child i' → i' ≤ j) := by
  intro cands
  induction cands with
  | nil =>
    intro _ i hadm _
    exact ⟨i, rfl, hadm, Or.inl rfl, le_refl _, fun _ => rfl, by simp⟩
  | cons k rest ih =>
    intro hpw i hadm hlt_all
    have hik : i < k := hlt_all k (List.mem_cons_self k rest)
    have hirest : ∀ j ∈ rest, i < j :=
      fun j hj => hlt_all j (List.mem_cons_of_mem _ hj)
    have hkrest : ∀ j ∈ rest, k < j := (List.pairwise_cons.mp hpw).1
    have hpw' : rest.Pairwise (· < ·) := (List.pairwise_cons.mp hpw).2
    rw [List.foldl_cons]
    by_cases hk : admissible parents child k = true
    · by_cases hcmp : candRatio parents child i < candRatio parents child k
      · have hs : stepIntersects parents child
            (some i, candRatio parents child i) k =
            (some k, candRatio parents child k) := by
          rw [stepIntersects_eq, if_pos hk, if_pos hcmp]
        rw [hs]
        obtain ⟨i', h1, h2, h3, h4, h5, h6⟩ := ih hpw' k hk hkrest
        refine ⟨i', h1, h2, ?_, ?_, ?_, ?_⟩
        · rcases h3 with rfl | h3
          · exact Or.inr (List.mem_cons_self i' rest)
          · exact Or.inr (List.mem_cons_of_mem _ h3)
        · exact le_of_lt (lt_of_lt_of_le hcmp h4)
        · intro heq
          exact absurd heq (ne_of_lt (lt_of_lt_of_le hcmp h4))
        · intro j hj hja
          rcases List.mem_cons.mp hj with rfl | hj2
          · exact ⟨h4, fun he => le_of_eq (h5 he)⟩
          · exact h6 j hj2 hja
      · have hs : stepIntersects parents child
            (some i, candRatio parents child i) k =
            (some i, candRatio parents child i) := by
          rw [stepIntersects_eq, if_pos hk, if_neg hcmp]
        rw [hs]
        obtain ⟨i', h1, h2, h3, h4, h5, h6⟩ := ih hpw' i hadm hirest
        refine ⟨i', h1, h2, ?_, h4, h5, ?_⟩
        · rcases h3 with rfl | h3
          · exact Or.inl rfl
          · exact Or.inr (List.mem_cons_of_mem _ h3)
        · intro j hj hja
          have hki : candRatio parents child k ≤ candRatio parents child i :=
            le_of_not_lt hcmp
          rcases List.mem_cons.mp hj with rfl | hj2
          · refine ⟨le_trans hki h4, fun he => ?_⟩
            have hii : candRatio parents child i = candRatio parents child i' :=
              le_antisymm h4 (he ▸ hki)
            rw [h5 hii]
            exact le_of_lt hik
          · exact h6 j hj2 hja
    · have hs : stepIntersects parents child
          (some i, candRatio parents child i) k =
          (some i, candRatio parents child i) := by
        rw [stepIntersects_eq, if_neg hk]
      rw [hs]
      obtain ⟨i', h1, h2, h3, h4, h5, h6⟩ := ih hpw' i hadm hirest
      refine ⟨i', h1, h2, ?_, h4, h5, ?_⟩
      · rcases h3 with rfl | h3
        · exact Or.inl rfl
        · exact Or.inr (List.mem_cons_of_mem _ h3)
      · intro j hj hja
        rcases List.mem_cons.mp hj with rfl | hj2
        · exact absurd hja hk
        · exact h6 j hj2 hja

theorem selectLoop_some_best (parents : List Box) (child : Box) :
    ∀ (cands : List Nat), cands.Pairwise (· < ·) →
      ∀ i', (cands.foldl (stepIntersects parents child) (none, -1)).1 = some i' →
        admissible parents child i' = true ∧ i' ∈ cands ∧
        ∀ j ∈ cands, admissible parents child j = true →
          candRatio parents child j ≤ candRatio parents child i' ∧
          (candRatio parents child j = candRatio parents child i' → i' ≤ j) := by
  intro cands
  induction cands with
  | nil =>
    intro _ i' h
    simp at h
  | cons k rest ih =>
    intro hpw i' h
    rw [List.foldl_cons] at h
    by_cases hk : admissible parents child k = true
    · have hneg : ((none, (-1 : ℚ)) : Option Nat × ℚ).2 <
          candRatio parents child k :=
        lt_of_lt_of_le (by norm_num) (candRatio_nonneg parents child k)
      have hs : stepIntersects parents child (none, -1) k =
          (some k, candRatio parents child k) := by
        rw [stepIntersects_eq, if_pos hk, if_pos hneg]
      rw [hs] at h
      obtain ⟨i'', h1, h2, h3, h4, h5, h6⟩ :=
        selectLoop_go_best parents child rest (List.pairwise_cons.mp hpw).2 k
          hk (List.pairwise_cons.mp hpw).1
      rw [h1] at h
      have hi : i' = i'' := by
        simpa using h.symm
      subst hi
      refine ⟨h2, ?_, ?_⟩
      · rcases h3 with rfl | h3
        · exact List.mem_cons_self i' rest
        · exact List.mem_cons_of_mem _ h3
      · intro j hj hja
        rcases List.mem_cons.mp hj with rfl | hj2
        · exact ⟨h4, fun he => le_of_eq (h5 he)⟩
        · exact h6 j hj2 hja
    · have hs : stepIntersects parents child (none, -1) k = (none, -1) := by
        rw [stepIntersects_eq, if_neg hk]
      rw [hs] at h
      obtain ⟨ha, hm, hb⟩ := ih (List.pairwise_cons.mp hpw).2 i' h
      refine ⟨ha, List.mem_cons_of_mem _ hm, fun j hj hja => ?_⟩
      rcases List.mem_cons.mp hj with rfl | hj2
      · exact absurd hja hk
      · exact hb j hj2 hja

/-- C1: when the processboundaries.py candidate loop selects a parent,
that parent has maximal intersection ratio among all intersecting
candidates, and among candidates of equal maximal ratio it is the one
with the lowest index (id): the strict `ratio > best_ratio` comparison
keeps the earliest candidate, and the range query delivers candidates in
ascending id order. -/
theorem tie_break_lowest_id (parents : List Box) (child : Box) (i : Nat)
    (h : (selectLoop parents child (rangeQueryIdx parents child)).1 = some i) :
    ∀ j, j < parents.length → admissible parents child j = true →
      candRatio parents child j ≤ candRatio parents child i ∧
      (candRatio parents child j = candRatio parents child i → i ≤ j) := by
  have hpw : (rangeQueryIdx parents child).Pairwise (· < ·) :=
    List.Pairwise.filter _ (List.pairwise_lt_range _)
  obtain ⟨_, _, hbest⟩ := selectLoop_some_best parents child _ hpw i h
  intro j hj hja
  refine hbest j ?_ hja
  unfold rangeQueryIdx
  exact List.mem_filter.mpr ⟨List.mem_range.mpr hj, hja⟩

/-- Witness for C1 at the spec §8 scenario: the child [0.8,1.2]×[0,1] is
split 0.5/0.5 between parents 0 (A) and 1 (B); the loop selects 0, and
the theorem applied at the tied candidate 1 yields 0 ≤ 1. -/
theorem tie_break_lowest_id_holds :
    candRatio specParents specChild 1 ≤ candRatio specParents specChild 0 ∧
    (candRatio specParents specChild 1 = candRatio specParents specChild 0 →
      0 ≤ 1) :=
  tie_break_lowest_id specParents specChild 0
    (by norm_num [selectLoop, stepIntersects, rangeQueryIdx, Box.intersects,
      ratioOf, Box.interArea, Box.area, specParents, specChild,
      List.range, List.range.loop, List.filter, List.foldl])
    1 (by norm_num [specParents]) (by
      norm_num [admissible, specParents, specChild, Box.intersects])

/-- C3: the bounding-box range query is complete — it returns the id of
every entry whose stored box overlaps the query box; the SQL point filter
of `find_admin` is exactly the range query at a degenerate point box, so
a point inside or on the boundary of an entry's stored box always yields
that entry among the candidates. -/
theorem rangeQuery_complete (entries : List Entry) :
    (∀ (q : Box) (e : Entry), e ∈ entries → e.bbox.intersects q = true →
      e.id ∈ (rangeQueryBox entries q).map Entry.id) ∧
    (∀ lon lat : ℚ, rtreeCandidates entries lon lat =
      rangeQueryBox entries (Box.mk lon lat lon lat)) ∧
    (∀ (lon lat : ℚ) (e : Entry), e ∈ entries →
      e.bbox.coversPt lon lat = true →
      e.id ∈ (rtreeCandidates entries lon lat).map Entry.id) := by
  refine ⟨?_, fun lon lat => rfl, ?_⟩
  · intro q e he hov
    exact List.mem_map.mpr ⟨e, List.mem_filter.mpr ⟨he, hov⟩, rfl⟩
  · intro lon lat e he hc
    exact List.mem_map.mpr ⟨e, List.mem_filter.mpr ⟨he, hc⟩, rfl⟩

/-- Witness for C3: a single stored box and a boundary point of it. -/
theorem rangeQuery_complete_holds :
    (7 : Nat) ∈ (rtreeCandidates [⟨7, Box.mk 0 0 1 1⟩] 0 1).map Entry.id :=
  (rangeQuery_complete [⟨7, Box.mk 0 0 1 1⟩]).2.2 0 1 ⟨7, Box.mk 0 0 1 1⟩
    (by simp) (by norm_num [Box.coversPt])

/-- C8: constructing a SpatialIndex from zero entries fails with
`EmptyIndex`; construction from at least one entry succeeds and keeps the
entries; and on any constructed index the nearest query always succeeds,
returning one of the indexed entries. -/
theorem spatial_index_construction :
    (mkSpatialIndex [] = Except.error IndexError.EmptyIndex) ∧
    (∀ l : List Entry, l ≠ [] →
      ∃ ix : SpatialIndex, mkSpatialIndex l = Except.ok ix ∧ ix.entries = l) ∧
    (∀ (ix : SpatialIndex) (q : Box),
      ∃ e : Entry, ix.nearestQuery q = some e ∧ e ∈ ix.entries) := by
  refine ⟨rfl, ?_, ?_⟩
  · intro l hl
    exact ⟨⟨l, hl⟩, by rw [mkSpatialIndex, dif_neg hl], rfl⟩
  · intro ix q
    obtain ⟨e, rest, hcons⟩ := List.exists_cons_of_ne_nil ix.nonempty
    unfold SpatialIndex.nearestQuery
    rw [hcons]
    have hne : nearestEntry (e :: rest) q = some (rest.foldl
      (fun best x =>
        if x.bbox.sqDist q < best.bbox.sqDist q ∨
            (x.bbox.sqDist q = best.bbox.sqDist q ∧ x.id < best.id)
        then x else best) e) := rfl
    refine ⟨_, hne, ?_⟩
    have hres := foldl_pick
      (fun best x : Entry =>
        if x.bbox.sqDist q < best.bbox.sqDist q ∨
            (x.bbox.sqDist q = best.bbox.sqDist q ∧ x.id < best.id)
        then x else best)
      (fun b x => by
        by_cases hc : x.bbox.sqDist q < b.bbox.sqDist q ∨
            (x.bbox.sqDist q = b.bbox.sqDist q ∧ x.id < b.id)
        · exact Or.inr (if_pos hc)
        · exact Or.inl (if_neg hc))
      rest e
    rcases hres with h0 | hm
    · rw [h0]
      exact List.mem_cons_self e rest
    · exact List.mem_cons_of_mem _ hm

/-- Witness for C8: a one-entry index is built successfully. -/
theorem spatial_index_construction_holds :
    ∃ ix : SpatialIndex,
      mkSpatialIndex [⟨0, cBox⟩] = Except.ok ix ∧ ix.entries = [⟨0, cBox⟩] :=
  (spatial_index_construction).2.1 [⟨0, cBox⟩] (by simp)

theorem findAdminLoop_all_miss (lon lat : ℚ) :
    ∀ rows : List (MuniRow × StateRow × CountryRow),
      (∀ r ∈ rows, ∃ g, r.1.geomBlob = some g ∧ g.coversPt lon lat = false) →
      findAdminLoop lon lat rows = Except.ok none := by
  intro rows
  induction rows with
  | nil => intro _; rfl
  | cons r rest ih =>
    intro h
    obtain ⟨g, hg, hc⟩ := h r (List.mem_cons_self r rest)
    obtain ⟨m, s, c⟩ := r
    have hg2 : m.geomBlob = some g := hg
    simp only [findAdminLoop, hg2, hc, Bool.false_eq_true, if_false]
    exact ih (fun x hx => h x (List.mem_cons_of_mem _ hx))

theorem sqlRows_subset (db : DB) (lon lat : ℚ) :
    ∀ r ∈ sqlRows db lon lat, r.1 ∈ db.munis := by
  intro r hr
  unfold sqlRows at hr
  obtain ⟨m, hm, hmr⟩ := List.mem_filterMap.mp hr
  have hmem : m ∈ db.munis := List.mem_of_mem_filter hm
  rcases hs : db.states.find? (fun s => s.code == m.stateCode) with _ | s
  · rw [hs] at hmr
    simp at hmr
  · rcases hc : db.countries.find? (fun c => c.id == m.countryId) with _ | c
    · rw [hs, hc] at hmr
      simp at hmr
    · rw [hs, hc] at hmr
      simp only [Option.some.injEq] at hmr
      rw [← hmr]
      exact hmem

/-- C5: for a point not covered by any (intact) indexed municipality
geometry, `geocode_point` returns the UNKNOWN sentinel triple and raises
no error. -/
theorem geocode_point_unknown (db : DB) (lon lat : ℚ)
    (h : ∀ m ∈ db.munis, ∃ g, m.geomBlob = some g ∧
      g.coversPt lon lat = false) :
    geocode_point db lon lat =
      Except.ok ⟨"UNKNOWN", "UNKNOWN", "UNKNOWN"⟩ := by
  have hfa : find_admin db lon lat = Except.ok none :=
    findAdminLoop_all_miss lon lat _
      (fun r hr => h r.1 (sqlRows_subset db lon lat r hr))
  unfold geocode_point
  rw [hfa]

/-- Witness for C5: a faraway point yields the UNKNOWN result. -/
theorem geocode_point_unknown_holds :
    geocode_point smallDB 5 5 =
      Except.ok ⟨"UNKNOWN", "UNKNOWN", "UNKNOWN"⟩ :=
  geocode_point_unknown smallDB 5 5 (by
    intro m hm
    simp only [smallDB, List.mem_singleton] at hm
    subst hm
    exact ⟨cBox, rfl, by norm_num [cBox, Box.coversPt]⟩)

theorem joined_first (states : List StateRow) (countries : List CountryRow)
    (lon lat : ℚ) :
    ∀ (l : List MuniRow) (m₀ : MuniRow) (s₀ : StateRow) (c₀ : CountryRow),
      (∀ m ∈ l, (∃ g, m.geomBlob = some g) ∧
        (states.find? (fun s => s.code == m.stateCode)).isSome = true ∧
        (countries.find? (fun c => c.id == m.countryId)).isSome = true) →
      l.find? (coversTest lon lat) = some m₀ →
      states.find? (fun s => s.code == m₀.stateCode) = some s₀ →
      countries.find? (fun c => c.id == m₀.countryId) = some c₀ →
      findAdminLoop lon lat (l.filterMap (fun m =>
        match states.find? (fun s => s.code == m.stateCode),
              countries.find? (fun c => c.id == m.countryId) with
        | some s, some c => some (m, s, c)
        | _, _ => none)) =
        Except.ok (some ⟨m₀.name, s₀.name, c₀.name⟩) := by
  intro l
  induction l with
  | nil =>
    intro m₀ s₀ c₀ _ hfind _ _
    simp at hfind
  | cons m rest ih =>
    intro m₀ s₀ c₀ hall hfind hs0 hc0
    obtain ⟨⟨gm, hgm⟩, hs, hc⟩ := hall m (List.mem_cons_self _ _)
    obtain ⟨sm, hsm⟩ := Option.isSome_iff_exists.mp hs
    obtain ⟨cm, hcm⟩ := Option.isSome_iff_exists.mp hc
    simp only [List.filterMap_cons, hsm, hcm]
    by_cases hcov : coversTest lon lat m = true
    · have hm0 : m₀ = m := by
        rw [List.find?_cons_of_pos _ hcov] at hfind
        exact (Option.some.injEq _ _ ▸ hfind).symm
      subst hm0
      have hgcov : gm.coversPt lon lat = true := by
        unfold coversTest at hcov
        rw [hgm] at hcov
        exact hcov
      have hseq : sm = s₀ := by
        rw [hsm] at hs0
        exact Option.some.inj hs0
      have hceq : cm = c₀ := by
        rw [hcm] at hc0
        exact Option.some.inj hc0
      subst hseq hceq
      simp only [findAdminLoop, hgm, hgcov, if_true]
    · have hfind2 : rest.find? (coversTest lon lat) = some m₀ := by
        rw [List.find?_cons_of_neg _ (by simpa using hcov)] at hfind
        exact hfind
      have hgcov : gm.coversPt lon lat = false := by
        unfold coversTest at hcov
        rw [hgm] at hcov
        simpa using hcov
      simp only [findAdminLoop, hgm, hgcov, Bool.false_eq_true, if_false]
      exact ih m₀ s₀ c₀ (fun x hx => hall x (List.mem_cons_of_mem _ hx))
        hfind2 hs0 hc0

/-- C4: when every stored municipality materializes and is well linked,
`find_admin` returns exactly the first bbox candidate (in range-query
order) whose geometry covers the point, with the district and country
names resolved through the stored parent links — the join applies no
geometric test to the ancestors. -/
theorem find_admin_first_cover (db : DB) (lon lat : ℚ)
    (m₀ : MuniRow) (s₀ : StateRow) (c₀ : CountryRow)
    (hall : ∀ m ∈ db.munis, (∃ g, m.geomBlob = some g) ∧
      (db.states.find? (fun s => s.code == m.stateCode)).isSome = true ∧
      (db.countries.find? (fun c => c.id == m.countryId)).isSome = true)
    (hfirst : (db.munis.filter (fun m => m.bbox.coversPt lon lat)).find?
      (coversTest lon lat) = some m₀)
    (hs : db.states.find? (fun s => s.code == m₀.stateCode) = some s₀)
    (hc : db.countries.find? (fun c => c.id == m₀.countryId) = some c₀) :
    find_admin db lon lat = Except.ok (some ⟨m₀.name, s₀.name, c₀.name⟩) := by
  unfold find_admin sqlRows
  exact joined_first db.states db.countries lon lat _ m₀ s₀ c₀
    (fun m hm => hall m (List.mem_of_mem_filter hm)) hfirst hs hc

/-- Witness for C4: a point inside the single stored municipality returns
its name triple. -/
theorem find_admin_first_cover_holds :
    find_admin smallDB (1/2) (1/2) = Except.ok (some ⟨"M", "St", "Co"⟩) :=
  find_admin_first_cover smallDB (1/2) (1/2)
    ⟨0, "M", "S", 0, some cBox, cBox⟩ ⟨"S", "St"⟩ ⟨0, "Co"⟩
    (by
      intro m hm
      simp only [smallDB, List.mem_singleton] at hm
      subst hm
      refine ⟨⟨cBox, rfl⟩, ?_, ?_⟩ <;> simp [smallDB, List.find?])
    (by norm_num [smallDB, cBox, coversTest, Box.coversPt, List.filter,
      List.find?])
    (by simp [smallDB, List.find?])
    (by simp [smallDB, List.find?])

theorem findAdminLoop_error (lon lat : ℚ) :
    ∀ (pre : List (MuniRow × StateRow × CountryRow)) (m : MuniRow)
      (s : StateRow) (c : CountryRow)
      (rest : List (MuniRow × StateRow × CountryRow)),
      (∀ r ∈ pre, ∃ g, r.1.geomBlob = some g ∧
        g.coversPt lon lat = false) →
      m.geomBlob = none →
      findAdminLoop lon lat (pre ++ (m, s, c) :: rest) =
        Except.error "corrupt geometry" := by
  intro pre
  induction pre with
  | nil =>
    intro m s c rest _ hbad
    simp only [List.nil_append, findAdminLoop, hbad]
  | cons r pre ih =>
    intro m s c rest h hbad
    obtain ⟨g, hg, hc⟩ := h r (List.mem_cons_self r pre)
    obtain ⟨m0, s0, c0⟩ := r
    have hg2 : m0.geomBlob = some g := hg
    simp only [List.cons_append, findAdminLoop, hg2, hc, Bool.false_eq_true,
      if_false]
    exact ih m s c rest (fun x hx => h x (List.mem_cons_of_mem _ hx)) hbad

/-- C9 (amended): a corrupt stored geometry reached while materializing a
candidate (every earlier candidate being intact and non-covering) aborts
the whole query with an error — the candidate is not skipped and no
warning-and-continue occurs. -/
theorem corrupt_geometry_aborts (db : DB) (lon lat : ℚ)
    (pre : List (MuniRow × StateRow × CountryRow)) (m : MuniRow)
    (s : StateRow) (c : CountryRow)
    (rest : List (MuniRow × StateRow × CountryRow))
    (hrows : sqlRows db lon lat = pre ++ (m, s, c) :: rest)
    (hpre : ∀ r ∈ pre, ∃ g, r.1.geomBlob = some g ∧
      g.coversPt lon lat = false)
    (hbad : m.geomBlob = none) :
    find_admin db lon lat = Except.error "corrupt geometry" := by
  unfold find_admin
  rw [hrows]
  exact findAdminLoop_error lon lat pre m s c rest hpre hbad

/-- Counterexample to C9 as stated: in `corruptDB` the first candidate's
blob is corrupt while the second candidate genuinely covers the point, so
skip-and-continue would succeed with candidate 1's names — but the query
(and `geocode_point` with it) errors out instead. -/
theorem corrupt_skip_refuted :
    cMuni1 ∈ corruptDB.munis ∧ cMuni1.geomBlob = some cBox ∧
    cBox.coversPt (1/2) (1/2) = true ∧
    cMuni0.bbox.coversPt (1/2) (1/2) = true ∧ cMuni0.geomBlob = none ∧
    find_admin corruptDB (1/2) (1/2) = Except.error "corrupt geometry" ∧
    geocode_point corruptDB (1/2) (1/2) =
      Except.error "corrupt geometry" := by
  refine ⟨by simp [corruptDB], rfl, by norm_num [cBox, Box.coversPt],
    by norm_num [cMuni0, cBox, Box.coversPt], rfl, ?_, ?_⟩
  · norm_num [find_admin, findAdminLoop, sqlRows, corruptDB, cMuni0,
      cMuni1, cBox, Box.coversPt, List.filter, List.filterMap, List.find?]
  · norm_num [geocode_point, find_admin, findAdminLoop, sqlRows, corruptDB,
      cMuni0, cMuni1, cBox, Box.coversPt, List.filter, List.filterMap,
      List.find?]

/-- Witness for the amended C9 at the concrete fixture. -/
theorem corrupt_geometry_aborts_holds :
    find_admin corruptDB (1/2) (1/2) = Except.error "corrupt geometry" :=
  corrupt_geometry_aborts corruptDB (1/2) (1/2) [] cMuni0 ⟨"S", "St"⟩
    ⟨0, "Co"⟩ [(cMuni1, ⟨"S", "St"⟩, ⟨0, "Co"⟩)]
    (by norm_num [sqlRows, corruptDB, cMuni0, cMuni1, cBox, Box.coversPt,
      List.filter, List.filterMap, List.find?])
    (by simp) rfl

theorem processBatch_go (parents : List Box) :
    ∀ (fs : List Feature) (acc : List IngestRow × List FailureRecord),
      fs.foldl (fun acc f =>
        match processOne parents f with
        | Except.ok r => (acc.1 ++ [r], acc.2)
        | Except.error e => (acc.1, acc.2 ++ [⟨f.props, e⟩])) acc =
      (acc.1 ++ (processBatch parents fs).1,
       acc.2 ++ (processBatch parents fs).2) := by
  intro fs
  induction fs with
  | nil =>
    intro acc
    simp [processBatch]
  | cons f rest ih =>
    intro acc
    unfold processBatch
    rw [List.foldl_cons, List.foldl_cons]
    cases hp : processOne parents f with
    | ok r =>
      simp only [hp]
      rw [ih, ih]
      simp [List.append_assoc]
    | error e =>
      simp only [hp]
      rw [ih, ih]
      simp [List.append_assoc]

/-- C6: the batch loop never aborts — it is a homomorphism on feature
lists (so every record after a failed one is still processed, exactly as
it would be on its own), every feature contributes exactly one success
row or one failure record, and every failing feature's raw properties and
error message land in the accumulated failure list. -/
theorem batch_never_aborts (parents : List Box) :
    (∀ xs ys : List Feature, processBatch parents (xs ++ ys) =
      ((processBatch parents xs).1 ++ (processBatch parents ys).1,
       (processBatch parents xs).2 ++ (processBatch parents ys).2)) ∧
    (∀ fs : List Feature,
      (processBatch parents fs).1.length +
        (processBatch parents fs).2.length = fs.length) ∧
    (∀ (fs : List Feature) (f : Feature) (e : String), f ∈ fs →
      processOne parents f = Except.error e →
      (⟨f.props, e⟩ : FailureRecord) ∈ (processBatch parents fs).2) := by
  refine ⟨?_, ?_, ?_⟩
  · intro xs ys
    unfold processBatch
    rw [List.foldl_append]
    exact processBatch_go parents ys _
  · intro fs
    induction fs with
    | nil => simp [processBatch]
    | cons f rest ih =>
      unfold processBatch
      rw [List.foldl_cons]
      cases hp : processOne parents f with
      | ok r =>
        simp only [hp]
        rw [processBatch_go parents rest]
        simp only [List.length_append, List.nil_append, List.length_cons,
          List.length_nil, List.length_singleton]
        omega
      | error e =>
        simp only [hp]
        rw [processBatch_go parents rest]
        simp only [List.length_append, List.nil_append, List.length_cons,
          List.length_nil, List.length_singleton]
        omega
  · intro fs
    induction fs with
    | nil =>
      intro f e hf _
      simp at hf
    | cons f0 rest ih =>
      intro f e hf hpe
      unfold processBatch
      rw [List.foldl_cons]
      rcases List.mem_cons.mp hf with rfl | hf2
      · simp only [hpe]
        rw [processBatch_go parents rest]
        simp
      · cases hp : processOne parents f0 with
        | ok r =>
          simp only [hp]
          rw [processBatch_go parents rest]
          simpa using ih f e hf2 hpe
        | error e0 =>
          simp only [hp]
          rw [processBatch_go parents rest]
          have hm := ih f e hf2 hpe
          simp [hm]

/-- Witness for C6: a two-feature batch whose first feature is malformed
still records the failure and processes the second feature. -/
theorem batch_never_aborts_holds :
    (⟨[("id", "bad")], "malformed geometry"⟩ : FailureRecord) ∈
      (processBatch [cBox]
        [⟨[("id", "bad")], none, none⟩,
         ⟨[("id", "good")], some "G", some cBox⟩]).2 :=
  (batch_never_aborts [cBox]).2.2
    [⟨[("id", "bad")], none, none⟩, ⟨[("id", "good")], some "G", some cBox⟩]
    ⟨[("id", "bad")], none, none⟩ "malformed geometry"
    (List.mem_cons_self _ _) rfl

end Locatepy
